import Mathlib

set_option maxRecDepth 4000

/-!
Verification of the Tagsistant RDS subsystem (src/rds.c) against its
natural-language specification.  The C code is shallowly embedded: the
query-tree data model becomes inductive types, the two SQL tables become
lists of rows inside an explicit `DB` state, and every SQL statement issued
by rds.c becomes the corresponding pure list transformation.  The
`AUTOINCREMENT` primary key of `RDS_catalog` (spec section 6) is modelled by
the monotone counter `DB.next_id`; `tagsistant_last_insert_id` returns the
id just assigned.
-/

namespace Tagsistant

/-- The four triple operators of `qtree_and_node.operator`
(TAGSISTANT_EQUAL_TO, TAGSISTANT_CONTAINS, TAGSISTANT_GREATER_THAN,
TAGSISTANT_SMALLER_THAN). -/
inductive Operator : Type where
  | equal_to : Operator
  | contains : Operator
  | greater_than : Operator
  | smaller_than : Operator
deriving DecidableEq

/-- The payload fields of a `qtree_and_node`: `tag_id` (0 models a NULL /
unset id), `tag` (a named tag, `none` models a NULL pointer), and the
`namespace`/`key`/`operator`/`value` fields of a triple tag.  The C field
`namespace` is spelled `nspace` because `namespace` is reserved in Lean. -/
structure Atom : Type where
  tag_id : Nat
  tag : Option String
  nspace : String
  key : String
  operator : Operator
  value : Option String
deriving DecidableEq

/-- A negated chain hanging off a main `qtree_and_node`.  Each node of the
chain is itself a `qtree_and_node`, so it carries BOTH a `next` pointer and
a `negated` pointer (plus its own `related` chain); the canonicalizer walks
such a chain via `->next` while the builder walks it via `->negated`, so
both successors must be kept.  `nil` models the NULL pointer. -/
inductive NegTree : Type where
  | nil : NegTree
  | node (atom : Atom) (related : List Atom) (next : NegTree) (negated : NegTree) : NegTree
deriving DecidableEq

/-- The atoms reached from a negated chain head by following `->next`
(the traversal used by `tagsistant_RDS_build_subquery`), each with its
`related` chain. -/
def NegTree.nextSpine : NegTree → List (Atom × List Atom)
  | .nil => []
  | .node a r nx _ => (a, r) :: nx.nextSpine

/-- The atoms reached from a negated chain head by following `->negated`
(the traversal used by PHASE 4 of `tagsistant_RDS_build`), each with its
`related` chain. -/
def NegTree.negSpine : NegTree → List (Atom × List Atom)
  | .nil => []
  | .node a r _ ng => (a, r) :: ng.negSpine

/-- One main-chain `qtree_and_node`: its own fields, its `related` chain
(threaded by `->related`), and its `negated` chain. -/
structure AndNode : Type where
  atom : Atom
  related : List Atom
  negated : NegTree
deriving DecidableEq

/-- A conjunction: the `and_set` chain of a `qtree_or_node`, threaded by
`->next`. -/
abbrev Conjunction := List AndNode

/-- A disjunction: the linked list of `qtree_or_node`s, threaded by
`->next`. -/
abbrev Disjunction := List Conjunction

/-- One row of the join `objects JOIN tagging JOIN tags` that the build
statements select from (read-only for the RDS subsystem). -/
structure TaggingRow : Type where
  inode : Nat
  objectname : String
  tag_id : Nat
  tagname : String
  key : String
  value : String
deriving DecidableEq

/-- One row of `RDS_catalog` (spec section 6). `created` is irrelevant to
every claim and is omitted. -/
structure CatalogRow : Type where
  rds_id : Nat
  subquery : String
  expired : Bool
deriving DecidableEq

/-- One row of the `RDS` table. -/
structure RDSRow : Type where
  rds_id : Nat
  inode : Nat
  objectname : String
deriving DecidableEq

/-- The relational state seen by rds.c: the two owned tables, the
`AUTOINCREMENT` counter of `RDS_catalog.rds_id`, and the read-only
object/tagging store. -/
structure DB : Type where
  catalog : List CatalogRow
  rds : List RDSRow
  next_id : Nat
  store : List TaggingRow
deriving DecidableEq

/-- A single-quote character, built from its code point so that SQL text in
this file never contains a literal apostrophe. -/
def sq : String := String.singleton (Char.ofNat 39)

/-- Embedding of `tagsistant_query_add_and_set` (rds.c lines 149-187): append
one WHERE-clause criterion for a `qtree_and_node` to the statement string.
The branch order is exactly the C one: `tag_id`, then `tag`, then `value`;
when none is set the C appends nothing. -/
def tagsistant_query_add_and_set (statement : String) (and_set : Atom) : String :=
  if and_set.tag_id ≠ 0 then
    statement ++ "tagging.tag_id = " ++ toString and_set.tag_id ++ " "
  else
    match and_set.tag with
    | some t => statement ++ "tagname = " ++ sq ++ t ++ sq ++ " "
    | none =>
      match and_set.value with
      | some v =>
        match and_set.operator with
        | .equal_to =>
          statement ++ "tagname = " ++ sq ++ and_set.nspace ++ sq ++
            " and `key` = " ++ sq ++ and_set.key ++ sq ++
            " and value = " ++ sq ++ v ++ sq ++ " "
        | .contains =>
          statement ++ "tagname = " ++ sq ++ and_set.nspace ++ sq ++
            " and `key` = " ++ sq ++ and_set.key ++ sq ++
            " and value like " ++ sq ++ "%" ++ v ++ "%" ++ sq ++ " "
        | .greater_than =>
          statement ++ "tagname = " ++ sq ++ and_set.nspace ++ sq ++
            " and `key` = " ++ sq ++ and_set.key ++ sq ++
            " and value > " ++ sq ++ v ++ sq ++ " "
        | .smaller_than =>
          statement ++ "tagname = " ++ sq ++ and_set.nspace ++ sq ++
            " and `key` = " ++ sq ++ and_set.key ++ sq ++
            " and value < " ++ sq ++ v ++ sq ++ " "
      | none => statement

/-- Substring test on character lists, modelling the SQL `like` with a
leading and trailing `%` wildcard. -/
def charsContain (needle : List Char) : List Char → Bool
  | [] => needle.isEmpty
  | c :: rest => needle.isPrefixOf (c :: rest) || charsContain needle rest

/-- Relational semantics of the criterion emitted by
`tagsistant_query_add_and_set` for one joined row: `tagging.tag_id = N`,
`tagname = T`, or the triple comparison.  String comparison models the SQL
text comparison; `like` with wrapping `%` is a substring test.  When no
field is set the C emits no criterion at all (the statement would be
malformed SQL), modelled as matching nothing. -/
def tagsistant_match_and_set (and_set : Atom) (t : TaggingRow) : Bool :=
  if and_set.tag_id ≠ 0 then
    t.tag_id == and_set.tag_id
  else
    match and_set.tag with
    | some tg => t.tagname == tg
    | none =>
      match and_set.value with
      | some v =>
        t.tagname == and_set.nspace && t.key == and_set.key &&
          (match and_set.operator with
           | .equal_to => t.value == v
           | .contains => charsContain v.data t.value.data
           | .greater_than => decide (v < t.value)
           | .smaller_than => decide (t.value < v))
      | none => false

/-- A joined row satisfies the OR-chain `P(a) OR P(rel_0) OR P(rel_1) ...`
that the build phases emit for one main atom and its `related` chain. -/
def tagsistant_match_or_related (a : Atom) (rel : List Atom) (t : TaggingRow) : Bool :=
  tagsistant_match_and_set a t || rel.any (fun x => tagsistant_match_and_set x t)

/-- An inode is selected by the subselect
`select objects.inode from objects join tagging join tags where P(a) or P(rel...)`. -/
def tagsistant_tagged_by (store : List TaggingRow) (a : Atom) (rel : List Atom) (inode : Nat) : Bool :=
  store.any (fun t => t.inode == inode && tagsistant_match_or_related a rel t)

/-- Embedding of `tagsistant_RDS_subquery_add_tag` (rds.c lines 195-213):
append one tag to the subquery string, prefixed by a minus and a slash when
negated; a
named tag renders as `tag/`, otherwise the triple renders as
`namespace/key/OP/value/`.  glibc printf renders a NULL `%s` argument as
`(null)`, which is what a triple with no value would produce. -/
def tagsistant_RDS_subquery_add_tag (subquery : String) (node : Atom) (negated : Bool) : String :=
  let s := if negated then subquery ++ "-/" else subquery
  match node.tag with
  | some t => s ++ t ++ "/"
  | none =>
    let s := s ++ node.nspace ++ "/" ++ node.key ++ "/"
    let s := s ++ (match node.operator with
      | .equal_to => "eq/"
      | .contains => "inc/"
      | .greater_than => "gt/"
      | .smaller_than => "lt/")
    s ++ node.value.getD "(null)" ++ "/"

/-- Embedding of `tagsistant_RDS_build_subquery` (rds.c lines 221-244): a
first loop over the main `->next` chain appends every atom, then a second
loop over the main chain appends each node's negated chain (stepping inside
it via `->next`, hence `nextSpine`) with the negated prefix. -/
def tagsistant_RDS_build_subquery (query : Conjunction) : String :=
  let subquery := query.foldl
    (fun s n => tagsistant_RDS_subquery_add_tag s n.atom false) ""
  query.foldl
    (fun s n => n.negated.nextSpine.foldl
      (fun s2 m => tagsistant_RDS_subquery_add_tag s2 m.1 true) s)
    subquery

/-- `select rds_id from RDS_catalog where subquery = S` run through
`tagsistant_return_integer`: the callback stores the integer of each result
row into the same variable, so with several matching rows the last one wins;
the variable keeps its initial 0 when no row matches.  (The callback lives
in sql.c, outside src/; its overwrite-per-row behaviour is the spec's
`fetch_id ... Returning 0 means "no RDS, build it"`.) -/
def catalogSelectId (subquery : String) (catalog : List CatalogRow) : Nat :=
  ((catalog.reverse.find? (fun r => r.subquery == subquery)).map (fun r => r.rds_id)).getD 0

/-- Embedding of `tagsistant_RDS_fetch_id` (rds.c lines 253-279).  With
`rebuild_expired_RDS` set it first runs
`delete from RDS where rds_id = (select rds_id from RDS_catalog where subquery = S)`
(a scalar subquery: the first matching catalog row, or NULL — deleting
nothing — when none matches), then
`delete from RDS_catalog where subquery = S`, and finally selects the id by
subquery. -/
def tagsistant_RDS_fetch_id (subquery : String) (rebuild_expired_RDS : Bool) (db : DB) : Nat × DB :=
  if rebuild_expired_RDS then
    let db1 :=
      match db.catalog.find? (fun r => r.subquery == subquery) with
      | some row => { db with rds := db.rds.filter (fun x => !(x.rds_id == row.rds_id)) }
      | none => db
    let db2 := { db1 with catalog := db1.catalog.filter (fun r => !(r.subquery == subquery)) }
    (catalogSelectId subquery db2.catalog, db2)
  else
    (catalogSelectId subquery db.catalog, db)

/-- The rows inserted by PHASE 2 of `tagsistant_RDS_build`:
`insert into RDS select ID, objects.inode, objects.objectname from ... where
P(head) or P(head.related...)`. -/
def RDS_phase2 (rds_id : Nat) (head : AndNode) (store : List TaggingRow) : List RDSRow :=
  (store.filter (fun t => tagsistant_match_or_related head.atom head.related t)).map
    (fun t => { rds_id := rds_id, inode := t.inode, objectname := t.objectname })

/-- The survival predicate of one PHASE 3 statement: `delete from RDS where
rds_id = ID and inode not in (select ...)` keeps a row iff it is not the
case that the row belongs to this RDS and its inode fails the subselect. -/
def RDS_phase3_keep (rds_id : Nat) (store : List TaggingRow) (n : AndNode) (row : RDSRow) : Bool :=
  !(row.rds_id == rds_id && !(tagsistant_tagged_by store n.atom n.related row.inode))

/-- PHASE 3 of `tagsistant_RDS_build`: one delete statement per `->next`
node after the head. -/
def RDS_phase3 (rds_id : Nat) (store : List TaggingRow) (rest : List AndNode) (rows : List RDSRow) : List RDSRow :=
  rest.foldl (fun acc n => acc.filter (RDS_phase3_keep rds_id store n)) rows

/-- The survival predicate of one PHASE 4 statement: `delete from RDS where
rds_id = ID and inode in (select ...)`. -/
def RDS_phase4_keep (rds_id : Nat) (store : List TaggingRow) (m : Atom × List Atom) (row : RDSRow) : Bool :=
  !(row.rds_id == rds_id && tagsistant_tagged_by store m.1 m.2 row.inode)

/-- PHASE 4 of `tagsistant_RDS_build`: for every main-chain node, one delete
statement per node of its negated chain, the chain being stepped via
`->negated` (hence `negSpine`). -/
def RDS_phase4 (rds_id : Nat) (store : List TaggingRow) (query : List AndNode) (rows : List RDSRow) : List RDSRow :=
  query.foldl
    (fun acc n => n.negated.negSpine.foldl
      (fun acc2 m => acc2.filter (RDS_phase4_keep rds_id store m)) acc)
    rows

/-- Embedding of `tagsistant_RDS_build` (rds.c lines 286-431).  PHASE 1
inserts the catalog row (`expired` takes its SQL default 0) and reads the
auto-increment id; when the conjunction has no head the function returns
right after PHASE 1, otherwise PHASES 2-4 transform the `RDS` table. -/
def tagsistant_RDS_build (query : Conjunction) (subquery : String) (db : DB) : Nat × DB :=
  let rds_id := db.next_id
  let db1 : DB := { db with
    catalog := db.catalog ++ [{ rds_id := rds_id, subquery := subquery, expired := false }],
    next_id := db.next_id + 1 }
  match query with
  | [] => (rds_id, db1)
  | head :: rest =>
    let rows := db1.rds ++ RDS_phase2 rds_id head db1.store
    let rows := RDS_phase3 rds_id db1.store rest rows
    let rows := RDS_phase4 rds_id db1.store (head :: rest) rows
    (rds_id, { db1 with rds := rows })

/-- The fetch-or-build critical section of `tagsistant_RDS_prepare` (rds.c
lines 487-503, the part executed under the global RDS mutex for one
disjunct): canonicalize, fetch, and build when the fetch returned 0. -/
def RDS_step (q : Conjunction) (rebuild_expired_RDS : Bool) (db : DB) : Nat × DB :=
  let subquery := tagsistant_RDS_build_subquery q
  let fetched := tagsistant_RDS_fetch_id subquery rebuild_expired_RDS db
  if fetched.1 == 0 then tagsistant_RDS_build q subquery fetched.2 else fetched

/-- The per-disjunct loop of `tagsistant_RDS_prepare` (rds.c lines 483-514):
run the critical section for each disjunct and accumulate the rds_ids in
disjunct order, threading the state. -/
def tagsistant_RDS_prepare_loop : Disjunction → Bool → DB → List Nat × DB
  | [], _, db => ([], db)
  | q :: rest, rebuild_expired_RDS, db =>
    let r := RDS_step q rebuild_expired_RDS db
    let tail := tagsistant_RDS_prepare_loop rest rebuild_expired_RDS r.2
    (r.1 :: tail.1, tail.2)

/-- Embedding of `tagsistant_RDS_prepare` (rds.c lines 452-524): the ALL
meta-tag bypasses everything, a NULL query tree yields no fingerprint, and
otherwise each per-disjunct id is appended to a string as `", %d"` whose
first two characters are finally skipped (`RDS_ids->str + 2`). -/
def tagsistant_RDS_prepare (query : Disjunction) (is_all_path : Bool) (rebuild_expired_RDS : Bool) (db : DB) : Option String × DB :=
  if is_all_path then
    (none, db)
  else
    match query with
    | [] => (none, db)
    | _ :: _ =>
      let res := tagsistant_RDS_prepare_loop query rebuild_expired_RDS db
      (some ((res.1.foldl (fun s i => s ++ ", " ++ toString i) "").drop 2), res.2)

/-- Embedding of `tagsistant_RDS_invalidate` (rds.c lines 626-649): the one
live statement `update RDS_catalog set expired = 1 where rds_id in (FP)`;
`fingerprint` is the id list denoted by the stored fingerprint string.  The
tag-level eviction below it is dead code under `#if 0`. -/
def tagsistant_RDS_invalidate (fingerprint : List Nat) (db : DB) : DB :=
  { db with catalog :=
      db.catalog.map (fun r =>
        if fingerprint.contains r.rds_id then { r with expired := true } else r) }

/-- Well-formedness of the relational state, as guaranteed by the schema and
the build protocol (spec sections 3 and 6): subqueries are unique in the
catalog, `AUTOINCREMENT` primary keys are distinct, at least 1, and below
the counter, and the counter itself is at least 1. -/
def DBwf (db : DB) : Prop :=
  (db.catalog.map (fun r => r.subquery)).Nodup ∧
  (db.catalog.map (fun r => r.rds_id)).Nodup ∧
  (∀ r ∈ db.catalog, 1 ≤ r.rds_id ∧ r.rds_id < db.next_id) ∧
  1 ≤ db.next_id

instance DBwf_decidable (db : DB) : Decidable (DBwf db) := by
  unfold DBwf
  infer_instance

/-- The catalog projected to its identifying columns `(rds_id, subquery)`,
used to express that an operation keeps every catalog row. -/
def catalogPairs (db : DB) : List (Nat × String) :=
  db.catalog.map (fun r => (r.rds_id, r.subquery))

/-- Spec-side rendering of one operator, slash included: the spec's
`OP ∈ {eq, inc, gt, lt}` inside `.../OP/...`. -/
def spec_op_slash : Operator → String
  | .equal_to => "eq/"
  | .contains => "inc/"
  | .greater_than => "gt/"
  | .smaller_than => "lt/"

/-- Spec-side rendering of one atom (spec section 4.2 `render_atom`): a
named tag renders as `tag/`, a triple as `namespace/key/OP/value/`. -/
def spec_render_atom (a : Atom) : String :=
  match a.tag with
  | some t => t ++ "/"
  | none => a.nspace ++ "/" ++ a.key ++ "/" ++ spec_op_slash a.operator ++ a.value.getD "(null)" ++ "/"

/-- Concatenation of a list of strings. -/
def strConcat : List String → String
  | [] => ""
  | s :: l => s ++ strConcat l

/-- Rendering of a fingerprint as the code actually produces it: the ids in
base 10, joined by a comma and a single space. -/
def fingerprint_render : List Nat → String
  | [] => ""
  | [i] => toString i
  | i :: j :: rest => toString i ++ ", " ++ fingerprint_render (j :: rest)

/-- Split a character list on every comma. -/
def splitComma : List Char → List (List Char)
  | [] => [[]]
  | c :: rest =>
    match splitComma rest with
    | [] => [[]]
    | g :: gs => if c == Char.ofNat 44 then [] :: g :: gs else (c :: g) :: gs

/-- The spec's fingerprint grammar `fingerprint := id ("," id)*` — base-10
integers joined by a single comma, no padding characters: splitting on
commas must give at least one group, each non-empty and all digits. -/
def RDS_fingerprint_grammar (s : String) : Bool :=
  let groups := splitComma s.data
  !groups.isEmpty && groups.all (fun g => !g.isEmpty && g.all Char.isDigit)

/-- The single-quote character. -/
def qc : Char := Char.ofNat 39

/-- How an SQL reader recovers the first quoted literal of a statement
fragment: skip to the first quote, then read up to the next quote.  The
claim "the interpolated literal cannot terminate the SQL string early"
states that this recovers exactly the interpolated value. -/
def sql_first_literal (s : String) : Option String :=
  let rest := s.data.dropWhile (fun c => !(c == qc))
  if rest.isEmpty then none
  else some (String.mk (rest.tail.takeWhile (fun c => !(c == qc))))

/-- A negated chain with no successor in either direction: the traversal
via `->next` and the traversal via `->negated` trivially coincide on it. -/
def NegTree.shallow : NegTree → Bool
  | .nil => true
  | .node _ _ .nil .nil => true
  | .node _ _ _ _ => false

/-- A plain named-tag atom (fixture for concrete witnesses). -/
def Watom (t : String) : Atom :=
  { tag_id := 0, tag := some t, nspace := "", key := "", operator := .equal_to, value := none }

/-- A main-chain node carrying just a named tag (fixture). -/
def Wand (t : String) : AndNode :=
  { atom := Watom t, related := [], negated := .nil }

/-- The pristine relational state: empty tables, counter at 1 (fixture). -/
def Wdb0 : DB := { catalog := [], rds := [], next_id := 1, store := [] }

/-- Fixture: one-disjunct query on tag `t1`. -/
def Wq1 : Disjunction := [[Wand "t1"]]

/-- Fixture: state after preparing `Wq1` from `Wdb0`. -/
def Wdb1 : DB :=
  { catalog := [{ rds_id := 1, subquery := "t1/", expired := false }],
    rds := [], next_id := 2, store := [] }

/-- Fixture: a store with inode 7 tagged `t1` only. -/
def Wstore3 : List TaggingRow :=
  [{ inode := 7, objectname := "f", tag_id := 1, tagname := "t1", key := "", value := "" }]

/-- Fixture: pristine state over `Wstore3`. -/
def Wdb3 : DB := { catalog := [], rds := [], next_id := 1, store := Wstore3 }

/-- Fixture: state after preparing `Wq1` from `Wdb3`. -/
def Wdb3a : DB :=
  { catalog := [{ rds_id := 1, subquery := "t1/", expired := false }],
    rds := [{ rds_id := 1, inode := 7, objectname := "f" }],
    next_id := 2, store := Wstore3 }

/-- Fixture: `Wdb3a` after invalidating fingerprint `[1]`. -/
def Wdb3b : DB :=
  { catalog := [{ rds_id := 1, subquery := "t1/", expired := true }],
    rds := [{ rds_id := 1, inode := 7, objectname := "f" }],
    next_id := 2, store := Wstore3 }

/-- Fixture: `Wdb3b` after re-preparing `Wq1` with rebuild. -/
def Wdb3c : DB :=
  { catalog := [{ rds_id := 2, subquery := "t1/", expired := false }],
    rds := [{ rds_id := 2, inode := 7, objectname := "f" }],
    next_id := 3, store := Wstore3 }

/-- Fixture: store where inode 5 is tagged `t1` and inode 7 is tagged both
`t1` and `t2`. -/
def Wstore4 : List TaggingRow :=
  [{ inode := 5, objectname := "a", tag_id := 1, tagname := "t1", key := "", value := "" },
   { inode := 7, objectname := "b", tag_id := 1, tagname := "t1", key := "", value := "" },
   { inode := 7, objectname := "b", tag_id := 2, tagname := "t2", key := "", value := "" }]

/-- Fixture: the conjunction `t1 AND NOT t2`. -/
def Wand4 : AndNode :=
  { atom := Watom "t1", related := [], negated := .node (Watom "t2") [] .nil .nil }

/-- Fixture: pristine state over `Wstore4`. -/
def Wdb4 : DB := { catalog := [], rds := [], next_id := 1, store := Wstore4 }

/-- Fixture: a catalog whose only entry is already expired. -/
def Wdb5 : DB :=
  { catalog := [{ rds_id := 1, subquery := "t1/", expired := true }],
    rds := [], next_id := 2, store := [] }

/-- Fixture: two-disjunct query `t1 OR t2`. -/
def Wq6 : Disjunction := [[Wand "t1"], [Wand "t2"]]

/-- Fixture: state after preparing `Wq6` from `Wdb0`. -/
def Wdb6 : DB :=
  { catalog := [{ rds_id := 1, subquery := "t1/", expired := false },
                { rds_id := 2, subquery := "t2/", expired := false }],
    rds := [], next_id := 3, store := [] }

/-- Fixture: a catalog with one expired and one live entry plus an RDS row. -/
def Wdb7 : DB :=
  { catalog := [{ rds_id := 1, subquery := "t1/", expired := true },
                { rds_id := 2, subquery := "t2/", expired := false }],
    rds := [{ rds_id := 1, inode := 9, objectname := "x" }],
    next_id := 3, store := [] }

/-- Fixture: a named tag whose name contains a single quote. -/
def Watom9 : Atom :=
  { tag_id := 0, tag := some ("a" ++ sq ++ "b"), nspace := "", key := "",
    operator := .equal_to, value := none }

/-- Fixture: a negated chain of length two threaded by `->next`
(`x1` with `x1->next = x2` and `x1->negated = NULL`). -/
def Wneg10 : NegTree :=
  .node (Watom "x1") [] (.node (Watom "x2") [] .nil .nil) .nil

/-- Fixture: the conjunction `t1 AND NOT (x1, x2)` with the length-two
negated chain `Wneg10`. -/
def Wand10 : AndNode := { atom := Watom "t1", related := [], negated := Wneg10 }

/-- Fixture: store where inode 7 is tagged `t1` and `x2` (but not `x1`). -/
def Wstore10 : List TaggingRow :=
  [{ inode := 7, objectname := "b", tag_id := 1, tagname := "t1", key := "", value := "" },
   { inode := 7, objectname := "b", tag_id := 2, tagname := "x2", key := "", value := "" }]

/-- Fixture: pristine state over `Wstore10`. -/
def Wdb10 : DB := { catalog := [], rds := [], next_id := 1, store := Wstore10 }

theorem mem_foldl_filter {α β : Type} (p : β → α → Bool) (l : List β) (rows : List α) (a : α)
    (h : a ∈ l.foldl (fun r x => r.filter (p x)) rows) :
    a ∈ rows ∧ ∀ x ∈ l, p x a = true := by
  induction l generalizing rows with
  | nil => simpa using h
  | cons x xs ih =>
    simp only [List.foldl_cons] at h
    obtain ⟨h1, h2⟩ := ih (rows.filter (p x)) h
    have h3 := List.mem_filter.mp h1
    refine ⟨h3.1, ?_⟩
    intro y hy
    rcases List.mem_cons.mp hy with hy1 | hy2
    · exact hy1 ▸ h3.2
    · exact h2 y hy2

theorem mem_foldl_filter2 {α β γ : Type} (f : β → List γ) (p : γ → α → Bool)
    (l : List β) (rows : List α) (a : α)
    (h : a ∈ l.foldl (fun r n => (f n).foldl (fun r2 m => r2.filter (p m)) r) rows) :
    a ∈ rows ∧ ∀ n ∈ l, ∀ m ∈ f n, p m a = true := by
  induction l generalizing rows with
  | nil => simpa using h
  | cons x xs ih =>
    simp only [List.foldl_cons] at h
    obtain ⟨h1, h2⟩ := ih _ h
    obtain ⟨h3, h4⟩ := mem_foldl_filter p (f x) rows a h1
    refine ⟨h3, ?_⟩
    intro n hn m hm
    rcases List.mem_cons.mp hn with hn1 | hn2
    · exact h4 m (hn1 ▸ hm)
    · exact h2 n hn2 m hm

/-- C4: for every conjunction with a negated atom m (reached by the PHASE 4
traversal of the negated chain), the RDS materialized by
`tagsistant_RDS_build` excludes every inode tagged by m or by any atom of
its related chain: a surviving row of the built RDS is never tagged by m. -/
theorem RDS_build_negation_excludes
    (db : DB) (conj : Conjunction) (s : String)
    (n : AndNode) (hn : n ∈ conj) (m : Atom × List Atom) (hm : m ∈ n.negated.negSpine)
    (row : RDSRow) (hrow : row ∈ (tagsistant_RDS_build conj s db).2.rds)
    (hid : row.rds_id = (tagsistant_RDS_build conj s db).1) :
    tagsistant_tagged_by db.store m.1 m.2 row.inode = false := by
  rcases conj with _ | ⟨head, rest⟩
  · cases hn
  · simp only [tagsistant_RDS_build, RDS_phase4] at hrow hid
    obtain ⟨-, h2⟩ := mem_foldl_filter2 (fun n => n.negated.negSpine)
      (RDS_phase4_keep db.next_id db.store) (head :: rest) _ row hrow
    have hkeep := h2 n hn m hm
    simp only [RDS_phase4_keep, hid, beq_self_eq_true, Bool.true_and,
      Bool.not_eq_true', Bool.and_eq_false_iff] at hkeep
    simpa using hkeep

/-- Witness for C4 at a concrete store: inode 5 (tagged only `t1`) survives
the build of `t1 AND NOT t2` and is indeed not tagged by `t2`. -/
theorem RDS_build_negation_excludes_witness :
    tagsistant_tagged_by Wdb4.store (Watom "t2") [] 5 = false :=
  RDS_build_negation_excludes Wdb4 [Wand4] "t1/-/t2/" Wand4 (by decide)
    (Watom "t2", []) (by decide) { rds_id := 1, inode := 5, objectname := "a" }
    (by decide) (by decide)

/-- C8: with `is_all_path` set, `tagsistant_RDS_prepare` returns no
fingerprint and leaves the state untouched (no SQL is executed), for every
query tree and every value of `rebuild_expired_RDS`. -/
theorem RDS_prepare_all_bypass (query : Disjunction) (rebuild_expired_RDS : Bool) (db : DB) :
    tagsistant_RDS_prepare query true rebuild_expired_RDS db = (none, db) := by
  simp [tagsistant_RDS_prepare]

theorem subquery_add_tag_false (s : String) (a : Atom) :
    tagsistant_RDS_subquery_add_tag s a false = s ++ spec_render_atom a := by
  unfold tagsistant_RDS_subquery_add_tag spec_render_atom
  cases a.tag with
  | some t => simp [String.append_assoc]
  | none => cases a.operator <;> simp [spec_op_slash, String.append_assoc]

theorem subquery_add_tag_true (s : String) (a : Atom) :
    tagsistant_RDS_subquery_add_tag s a true = s ++ ("-/" ++ spec_render_atom a) := by
  unfold tagsistant_RDS_subquery_add_tag spec_render_atom
  cases a.tag with
  | some t => simp [String.append_assoc]
  | none => cases a.operator <;> simp [spec_op_slash, String.append_assoc]

theorem foldl_subquery_main (l : List AndNode) : ∀ init : String,
    l.foldl (fun s n => tagsistant_RDS_subquery_add_tag s n.atom false) init
      = init ++ strConcat (l.map (fun n => spec_render_atom n.atom)) := by
  induction l with
  | nil => intro init; simp [strConcat, String.append_empty]
  | cons x xs ih =>
    intro init
    simp only [List.foldl_cons, List.map_cons, strConcat]
    rw [subquery_add_tag_false, ih, String.append_assoc]

theorem foldl_subquery_neg_inner (ms : List (Atom × List Atom)) : ∀ init : String,
    ms.foldl (fun s2 m => tagsistant_RDS_subquery_add_tag s2 m.1 true) init
      = init ++ strConcat (ms.map (fun m => "-/" ++ spec_render_atom m.1)) := by
  induction ms with
  | nil => intro init; simp [strConcat, String.append_empty]
  | cons x xs ih =>
    intro init
    simp only [List.foldl_cons, List.map_cons, strConcat]
    rw [subquery_add_tag_true, ih, String.append_assoc]

theorem foldl_subquery_neg (l : List AndNode) : ∀ init : String,
    l.foldl (fun s n => n.negated.nextSpine.foldl
        (fun s2 m => tagsistant_RDS_subquery_add_tag s2 m.1 true) s) init
      = init ++ strConcat (l.map (fun n =>
          strConcat (n.negated.nextSpine.map (fun m => "-/" ++ spec_render_atom m.1)))) := by
  induction l with
  | nil => intro init; simp [strConcat, String.append_empty]
  | cons x xs ih =>
    intro init
    simp only [List.foldl_cons, List.map_cons, strConcat]
    rw [foldl_subquery_neg_inner, ih, String.append_assoc]

/-- C1: canonicalization is deterministic and format-fixed.  For any two
structurally equal conjunctions, `tagsistant_RDS_build_subquery` yields the
byte-identical string obtained by first rendering each main-chain atom in
order (`tag/` for a named tag, `namespace/key/OP/value/` with
`OP ∈ {eq, inc, gt, lt}` for a triple — see `spec_render_atom` and
`spec_op_slash`), then, in a second pass over the main chain, rendering each
negated atom prefixed by the minus-slash marker. -/
theorem RDS_build_subquery_canonical (c1 c2 : Conjunction) (h : c1 = c2) :
    tagsistant_RDS_build_subquery c1 =
      strConcat (c2.map (fun n => spec_render_atom n.atom)) ++
      strConcat (c2.map (fun n =>
        strConcat (n.negated.nextSpine.map (fun m => "-/" ++ spec_render_atom m.1)))) := by
  subst h
  unfold tagsistant_RDS_build_subquery
  rw [foldl_subquery_neg, foldl_subquery_main]
  simp [String.empty_append]

/-- Witness for C1 at a concrete conjunction (two syntactically different
but equal structures). -/
theorem RDS_build_subquery_canonical_witness :
    tagsistant_RDS_build_subquery ([Wand10] ++ []) =
      strConcat ([Wand10].map (fun n => spec_render_atom n.atom)) ++
      strConcat ([Wand10].map (fun n =>
        strConcat (n.negated.nextSpine.map (fun m => "-/" ++ spec_render_atom m.1)))) :=
  RDS_build_subquery_canonical ([Wand10] ++ []) [Wand10] (by decide)

/-- C10 is false on the code: on the length-two negated chain `Wneg10`
(threaded by the `next` pointer) the canonicalizer serializes both `x1` and
`x2` into the cache key, while PHASE 4 of the builder (stepping via the
`negated` pointer) subtracts only `x1` — the built RDS keeps inode 7 even
though 7 is tagged by the serialized negated atom `x2`. -/
theorem negated_traversal_mismatch :
    Wand10.negated.nextSpine.map Prod.fst ≠ Wand10.negated.negSpine.map Prod.fst
    ∧ tagsistant_RDS_build_subquery [Wand10] = "t1/-/x1/-/x2/"
    ∧ ({ rds_id := 1, inode := 7, objectname := "b" } : RDSRow)
        ∈ (tagsistant_RDS_build [Wand10] "t1/-/x1/-/x2/" Wdb10).2.rds
    ∧ tagsistant_tagged_by Wstore10 (Watom "x2") [] 7 = true := by decide

/-- C10 amended: the canonicalizer steps through negated chains via `next`
while the builder steps via `negated`; the two agree exactly on chains where
both traversals see the same nodes — in particular on every negated chain of
length at most one — and there the cache key and the materialized rows are
derived from the same negated atoms. -/
theorem negated_traversal_agree_shallow (c : Conjunction)
    (h : ∀ n ∈ c, n.negated.shallow = true) :
    ∀ n ∈ c, n.negated.nextSpine = n.negated.negSpine := by
  intro n hn
  have hs := h n hn
  cases htree : n.negated with
  | nil => rfl
  | node a r nx ng =>
    rw [htree] at hs
    cases nx <;> cases ng <;>
      simp [NegTree.shallow, NegTree.nextSpine, NegTree.negSpine] at hs ⊢

/-- Witness for the amended C10 at a concrete one-atom negated chain. -/
theorem negated_traversal_agree_shallow_witness :
    Wand4.negated.nextSpine = Wand4.negated.negSpine :=
  negated_traversal_agree_shallow [Wand4] (by decide) Wand4 (by decide)

/-- C9 is false on the code: `tagsistant_query_add_and_set` interpolates the
tag name verbatim; for the tag `a'b` the emitted fragment lets an SQL reader
recover only `a` — the quote terminates the literal early, so the code
neither uses bound parameters nor escapes or rejects quotes. -/
theorem query_add_and_set_quote_breaks_literal :
    sql_first_literal (tagsistant_query_add_and_set "" Watom9) = some "a"
    ∧ some "a" ≠ some ("a" ++ sq ++ "b")
    ∧ Watom9.tag = some ("a" ++ sq ++ "b") := by decide

theorem dropWhile_append_all {α : Type} (p : α → Bool) (xs ys : List α)
    (h : ∀ x ∈ xs, p x = true) :
    (xs ++ ys).dropWhile p = ys.dropWhile p := by
  induction xs with
  | nil => rfl
  | cons x xs ih =>
    rw [List.cons_append, List.dropWhile_cons]
    simp only [h x (by simp)]
    exact ih (fun y hy => h y (by simp [hy]))

theorem takeWhile_append_stop {α : Type} (p : α → Bool) (b : α) (hb : p b = false)
    (xs ys : List α) :
    (xs ++ b :: ys).takeWhile p = xs.takeWhile p := by
  induction xs with
  | nil => simp [List.takeWhile_cons, hb]
  | cons x xs ih =>
    rw [List.cons_append, List.takeWhile_cons, List.takeWhile_cons]
    cases hx : p x
    · simp
    · simp [ih]

theorem takeWhile_eq_self_forall {α : Type} (p : α → Bool) :
    ∀ l : List α, l.takeWhile p = l → ∀ x ∈ l, p x = true := by
  intro l
  induction l with
  | nil => intro _ x hx; cases hx
  | cons a l ih =>
    intro h x hx
    cases ha : p a
    · simp [List.takeWhile_cons, ha] at h
    · simp only [List.takeWhile_cons, ha, if_true, List.cons.injEq, true_and] at h
      rcases List.mem_cons.mp hx with hx1 | hx2
      · exact hx1 ▸ ha
      · exact ih h x hx2

/-- C9 amended: the fragment builder interpolates the tag literal verbatim
between quotes with no escaping (the escaping obligation of the contract is
carried design debt): an SQL reader of the fragment recovers only the prefix
of the tag up to its first quote character, so any quote-bearing value does
terminate the literal early. -/
theorem query_add_and_set_verbatim :
    (∀ st : String, ∀ a : Atom, ∀ t : String, a.tag_id = 0 → a.tag = some t →
      tagsistant_query_add_and_set st a = st ++ "tagname = " ++ sq ++ t ++ sq ++ " ")
    ∧ (∀ a : Atom, ∀ t : String, a.tag_id = 0 → a.tag = some t →
      sql_first_literal (tagsistant_query_add_and_set "" a)
        = some (String.mk (t.data.takeWhile (fun c => !(c == qc)))))
    ∧ (∀ a : Atom, ∀ t : String, a.tag_id = 0 → a.tag = some t → qc ∈ t.data →
      sql_first_literal (tagsistant_query_add_and_set "" a) ≠ some t) := by
  have key1 : ∀ st : String, ∀ a : Atom, ∀ t : String, a.tag_id = 0 → a.tag = some t →
      tagsistant_query_add_and_set st a = st ++ "tagname = " ++ sq ++ t ++ sq ++ " " := by
    intro st a t h0 h1
    simp [tagsistant_query_add_and_set, h0, h1, String.append_assoc]
  have key2 : ∀ a : Atom, ∀ t : String, a.tag_id = 0 → a.tag = some t →
      sql_first_literal (tagsistant_query_add_and_set "" a)
        = some (String.mk (t.data.takeWhile (fun c => !(c == qc)))) := by
    intro a t h0 h1
    rw [key1 "" a t h0 h1]
    have hdata : ("" ++ "tagname = " ++ sq ++ t ++ sq ++ " ").data
        = "tagname = ".data ++ (qc :: (t.data ++ (qc :: " ".data))) := by
      simp [String.data_append, sq, qc, String.data_singleton]
    unfold sql_first_literal
    rw [hdata, dropWhile_append_all _ _ _ (by decide), List.dropWhile_cons]
    simp only [beq_self_eq_true, Bool.not_true, Bool.false_eq_true, if_false,
      List.isEmpty_cons, List.tail_cons]
    rw [takeWhile_append_stop _ qc (by simp) t.data]
  have key3 : ∀ a : Atom, ∀ t : String, a.tag_id = 0 → a.tag = some t → qc ∈ t.data →
      sql_first_literal (tagsistant_query_add_and_set "" a) ≠ some t := by
    intro a t h0 h1 hq hcontra
    rw [key2 a t h0 h1] at hcontra
    have hmk : String.mk (t.data.takeWhile (fun c => !(c == qc))) = t :=
      Option.some.inj hcontra
    have hdata : t.data.takeWhile (fun c => !(c == qc)) = t.data :=
      congrArg String.data hmk
    have := takeWhile_eq_self_forall (fun c => !(c == qc)) t.data hdata qc hq
    simp at this
  exact ⟨key1, key2, key3⟩

/-- Witness for the amended C9: concrete verbatim interpolation, and the
early-terminated read-back of the quote-bearing tag of `Watom9`. -/
theorem query_add_and_set_verbatim_witness :
    tagsistant_query_add_and_set "x or " (Watom "t1")
      = "x or " ++ "tagname = " ++ sq ++ "t1" ++ sq ++ " "
    ∧ sql_first_literal (tagsistant_query_add_and_set "" Watom9) ≠ some ("a" ++ sq ++ "b") :=
  ⟨query_add_and_set_verbatim.1 "x or " (Watom "t1") "t1" (by decide) (by decide),
   query_add_and_set_verbatim.2.2 Watom9 ("a" ++ sq ++ "b") (by decide) (by decide) (by decide)⟩

theorem fetch_id_false (s : String) (db : DB) :
    tagsistant_RDS_fetch_id s false db = (catalogSelectId s db.catalog, db) := rfl

theorem fetch_id_snd_next (s : String) (reb : Bool) (db : DB) :
    (tagsistant_RDS_fetch_id s reb db).2.next_id = db.next_id := by
  unfold tagsistant_RDS_fetch_id
  cases reb
  · rfl
  · cases hf : db.catalog.find? (fun r => r.subquery == s) <;> simp [hf]

theorem fetch_id_snd_store (s : String) (reb : Bool) (db : DB) :
    (tagsistant_RDS_fetch_id s reb db).2.store = db.store := by
  unfold tagsistant_RDS_fetch_id
  cases reb
  · rfl
  · cases hf : db.catalog.find? (fun r => r.subquery == s) <;> simp [hf]

theorem fetch_id_true_catalog (s : String) (db : DB) :
    (tagsistant_RDS_fetch_id s true db).2.catalog
      = db.catalog.filter (fun r => !(r.subquery == s)) := by
  unfold tagsistant_RDS_fetch_id
  cases hf : db.catalog.find? (fun r => r.subquery == s) <;> simp [hf]

theorem fetch_id_catalog_sub (s : String) (reb : Bool) (db : DB) (r : CatalogRow)
    (h : r ∈ (tagsistant_RDS_fetch_id s reb db).2.catalog) : r ∈ db.catalog := by
  cases reb
  · rw [fetch_id_false] at h; exact h
  · rw [fetch_id_true_catalog] at h; exact (List.mem_filter.mp h).1

theorem fetch_id_rds_sub (s : String) (reb : Bool) (db : DB) (row : RDSRow)
    (h : row ∈ (tagsistant_RDS_fetch_id s reb db).2.rds) : row ∈ db.rds := by
  cases reb
  · rw [fetch_id_false] at h; exact h
  · unfold tagsistant_RDS_fetch_id at h
    cases hf : db.catalog.find? (fun r => r.subquery == s) <;> simp only [hf] at h
    · exact h
    · exact (List.mem_filter.mp h).1

theorem build_fst (q : Conjunction) (s : String) (db : DB) :
    (tagsistant_RDS_build q s db).1 = db.next_id := by
  cases q <;> rfl

theorem build_catalog (q : Conjunction) (s : String) (db : DB) :
    (tagsistant_RDS_build q s db).2.catalog
      = db.catalog ++ [{ rds_id := db.next_id, subquery := s, expired := false }] := by
  cases q <;> rfl

theorem build_next_id (q : Conjunction) (s : String) (db : DB) :
    (tagsistant_RDS_build q s db).2.next_id = db.next_id + 1 := by
  cases q <;> rfl

theorem build_store (q : Conjunction) (s : String) (db : DB) :
    (tagsistant_RDS_build q s db).2.store = db.store := by
  cases q <;> rfl

theorem build_rds_mem (q : Conjunction) (s : String) (db : DB) (row : RDSRow)
    (h : row ∈ (tagsistant_RDS_build q s db).2.rds) :
    row ∈ db.rds ∨ row.rds_id = db.next_id := by
  cases q with
  | nil => exact Or.inl h
  | cons head rest =>
    simp only [tagsistant_RDS_build, RDS_phase4, RDS_phase3] at h
    have h1 := (mem_foldl_filter2 _ _ _ _ _ h).1
    have h2 := (mem_foldl_filter _ _ _ _ h1).1
    rcases List.mem_append.mp h2 with h3 | h3
    · exact Or.inl h3
    · right
      unfold RDS_phase2 at h3
      obtain ⟨t, -, rfl⟩ := List.mem_map.mp h3
      rfl

theorem selId_append (s : String) (c : List CatalogRow) (r : CatalogRow) :
    catalogSelectId s (c ++ [r])
      = if r.subquery == s then r.rds_id else catalogSelectId s c := by
  unfold catalogSelectId
  rw [List.reverse_append]
  simp only [List.reverse_singleton, List.singleton_append]
  cases h : r.subquery == s
  · rw [List.find?_cons_of_neg _ (by simp [h]), if_neg (by simp)]
  · rw [List.find?_cons_of_pos _ (by simp [h]), if_pos rfl]
    rfl

theorem selId_zero_no_row (s : String) (c : List CatalogRow)
    (hge : ∀ r ∈ c, 1 ≤ r.rds_id) (h : catalogSelectId s c = 0) :
    ∀ r ∈ c, r.subquery ≠ s := by
  intro r hr heq
  cases hf : c.reverse.find? (fun x => x.subquery == s) with
  | none =>
    have := List.find?_eq_none.mp hf r (List.mem_reverse.mpr hr)
    simp [heq] at this
  | some r0 =>
    unfold catalogSelectId at h
    rw [hf] at h
    simp only [Option.map_some', Option.getD_some] at h
    have hm : r0 ∈ c := List.mem_reverse.mp (List.mem_of_find?_eq_some hf)
    have := hge r0 hm
    omega

theorem selId_mem (s : String) (c : List CatalogRow) (h : catalogSelectId s c ≠ 0) :
    ∃ r ∈ c, r.rds_id = catalogSelectId s c ∧ r.subquery = s := by
  cases hf : c.reverse.find? (fun x => x.subquery == s) with
  | none =>
    exfalso
    apply h
    unfold catalogSelectId
    rw [hf]
    rfl
  | some r0 =>
    refine ⟨r0, List.mem_reverse.mp (List.mem_of_find?_eq_some hf), ?_, ?_⟩
    · unfold catalogSelectId
      rw [hf]
      rfl
    · have := List.find?_some hf
      simpa using this

theorem selId_no_row (s : String) (c : List CatalogRow)
    (h : ∀ r ∈ c, r.subquery ≠ s) : catalogSelectId s c = 0 := by
  unfold catalogSelectId
  have hn : c.reverse.find? (fun x => x.subquery == s) = none :=
    List.find?_eq_none.mpr (fun x hx => by simp [h x (List.mem_reverse.mp hx)])
  rw [hn]
  rfl

theorem fetch_id_true_fst (s : String) (db : DB) :
    (tagsistant_RDS_fetch_id s true db).1 = 0 := by
  have hc := fetch_id_true_catalog s db
  unfold tagsistant_RDS_fetch_id at hc ⊢
  cases hf : db.catalog.find? (fun r => r.subquery == s) <;> simp [hf] at hc ⊢ <;>
  · apply selId_no_row
    intro r hr
    have := (List.mem_filter.mp hr).2
    simpa using this

theorem step_eq (q : Conjunction) (reb : Bool) (db : DB) :
    RDS_step q reb db =
      if (tagsistant_RDS_fetch_id (tagsistant_RDS_build_subquery q) reb db).1 == 0
      then tagsistant_RDS_build q (tagsistant_RDS_build_subquery q)
        (tagsistant_RDS_fetch_id (tagsistant_RDS_build_subquery q) reb db).2
      else tagsistant_RDS_fetch_id (tagsistant_RDS_build_subquery q) reb db := rfl

theorem step_false_eq (q : Conjunction) (db : DB) :
    RDS_step q false db =
      if catalogSelectId (tagsistant_RDS_build_subquery q) db.catalog == 0
      then tagsistant_RDS_build q (tagsistant_RDS_build_subquery q) db
      else (catalogSelectId (tagsistant_RDS_build_subquery q) db.catalog, db) := rfl

theorem step_next_mono (q : Conjunction) (reb : Bool) (db : DB) :
    db.next_id ≤ (RDS_step q reb db).2.next_id := by
  rw [step_eq]
  cases hc : (tagsistant_RDS_fetch_id (tagsistant_RDS_build_subquery q) reb db).1 == 0
  · rw [if_neg (by simp)]
    rw [fetch_id_snd_next]
  · rw [if_pos rfl]
    rw [build_next_id, fetch_id_snd_next]
    omega

theorem step_catalog_rows (q : Conjunction) (reb : Bool) (db : DB) (r : CatalogRow)
    (h : r ∈ (RDS_step q reb db).2.catalog) :
    r ∈ db.catalog ∨ r.rds_id = db.next_id := by
  rw [step_eq] at h
  cases hc : (tagsistant_RDS_fetch_id (tagsistant_RDS_build_subquery q) reb db).1 == 0 <;>
    simp only [hc] at h
  · rw [if_neg (by simp)] at h
    exact Or.inl (fetch_id_catalog_sub _ _ _ _ h)
  · rw [if_pos trivial, build_catalog] at h
    rcases List.mem_append.mp h with h1 | h1
    · exact Or.inl (fetch_id_catalog_sub _ _ _ _ h1)
    · right
      simp only [List.mem_singleton] at h1
      rw [h1, fetch_id_snd_next]

theorem loop_next_mono (Q : Disjunction) (reb : Bool) : ∀ db : DB,
    db.next_id ≤ (tagsistant_RDS_prepare_loop Q reb db).2.next_id := by
  induction Q with
  | nil => intro db; exact Nat.le_refl _
  | cons q rest ih =>
    intro db
    simp only [tagsistant_RDS_prepare_loop]
    exact Nat.le_trans (step_next_mono q reb db) (ih _)

theorem loop_catalog_rows (Q : Disjunction) (reb : Bool) : ∀ (db : DB) (r : CatalogRow),
    r ∈ (tagsistant_RDS_prepare_loop Q reb db).2.catalog →
    r ∈ db.catalog ∨ db.next_id ≤ r.rds_id := by
  induction Q with
  | nil => intro db r h; exact Or.inl h
  | cons q rest ih =>
    intro db r h
    simp only [tagsistant_RDS_prepare_loop] at h
    rcases ih _ r h with h1 | h1
    · rcases step_catalog_rows q reb db r h1 with h2 | h2
      · exact Or.inl h2
      · exact Or.inr (Nat.le_of_eq h2.symm)
    · exact Or.inr (Nat.le_trans (step_next_mono q reb db) h1)

theorem step_false_catalog_mono (q : Conjunction) (db : DB) (r : CatalogRow)
    (h : r ∈ db.catalog) : r ∈ (RDS_step q false db).2.catalog := by
  rw [step_false_eq]
  cases hc : catalogSelectId (tagsistant_RDS_build_subquery q) db.catalog == 0
  · rw [if_neg (by simp)]
    exact h
  · rw [if_pos rfl, build_catalog]
    exact List.mem_append.mpr (Or.inl h)

theorem loop_false_catalog_mono (Q : Disjunction) : ∀ (db : DB) (r : CatalogRow),
    r ∈ db.catalog → r ∈ (tagsistant_RDS_prepare_loop Q false db).2.catalog := by
  induction Q with
  | nil => intro db r h; exact h
  | cons q rest ih =>
    intro db r h
    simp only [tagsistant_RDS_prepare_loop]
    exact ih _ r (step_false_catalog_mono q db r h)

theorem step_false_sel (q : Conjunction) (db : DB) (hpos : 1 ≤ db.next_id) :
    catalogSelectId (tagsistant_RDS_build_subquery q) (RDS_step q false db).2.catalog
        = (RDS_step q false db).1
    ∧ (RDS_step q false db).1 ≠ 0 := by
  rw [step_false_eq]
  cases hc : catalogSelectId (tagsistant_RDS_build_subquery q) db.catalog == 0
  · rw [if_neg (by simp)]
    refine ⟨rfl, fun h0 => ?_⟩
    have h0' : catalogSelectId (tagsistant_RDS_build_subquery q) db.catalog = 0 := h0
    rw [h0'] at hc
    simp at hc
  · rw [if_pos rfl, build_catalog, build_fst, selId_append]
    rw [if_pos (by simp)]
    exact ⟨rfl, by omega⟩

theorem loop_false_sel_preserved (Q : Disjunction) : ∀ (db : DB) (s : String) (id : Nat),
    catalogSelectId s db.catalog = id → id ≠ 0 →
    catalogSelectId s (tagsistant_RDS_prepare_loop Q false db).2.catalog = id := by
  induction Q with
  | nil => intro db s id h h0; exact h
  | cons q rest ih =>
    intro db s id h h0
    simp only [tagsistant_RDS_prepare_loop]
    apply ih _ s id _ h0
    rw [step_false_eq]
    cases hc : catalogSelectId (tagsistant_RDS_build_subquery q) db.catalog == 0
    · rw [if_neg (by simp)]
      exact h
    · rw [if_pos rfl, build_catalog, selId_append]
      cases hqs : tagsistant_RDS_build_subquery q == s
      · rw [if_neg (by simp [hqs])]
        exact h
      · exfalso
        have heq : tagsistant_RDS_build_subquery q = s := by simpa using hqs
        rw [heq, h] at hc
        exact h0 (by simpa using hc)

theorem loop_false_stable (Q : Disjunction) : ∀ db : DB, 1 ≤ db.next_id →
    tagsistant_RDS_prepare_loop Q false (tagsistant_RDS_prepare_loop Q false db).2
      = ((tagsistant_RDS_prepare_loop Q false db).1,
         (tagsistant_RDS_prepare_loop Q false db).2) := by
  induction Q with
  | nil => intro db hpos; rfl
  | cons q rest ih =>
    intro db hpos
    have hsel := step_false_sel q db hpos
    have hsel2 : catalogSelectId (tagsistant_RDS_build_subquery q)
        (tagsistant_RDS_prepare_loop rest false (RDS_step q false db).2).2.catalog
        = (RDS_step q false db).1 :=
      loop_false_sel_preserved rest (RDS_step q false db).2 _ _ hsel.1 hsel.2
    have hposA : 1 ≤ (RDS_step q false db).2.next_id :=
      Nat.le_trans hpos (step_next_mono q false db)
    have ihA := ih (RDS_step q false db).2 hposA
    simp only [tagsistant_RDS_prepare_loop]
    have hstep2 : RDS_step q false
        (tagsistant_RDS_prepare_loop rest false (RDS_step q false db).2).2
        = ((RDS_step q false db).1,
           (tagsistant_RDS_prepare_loop rest false (RDS_step q false db).2).2) := by
      rw [step_false_eq, hsel2, if_neg (by simp [hsel.2])]
    rw [hstep2]
    simp only [ihA]

/-- C2: cache-hit idempotence of prepare.  If `prepare(Q, is_all_path=false,
rebuild_expired=false)` returned fingerprint F, running it again from the
resulting state returns the byte-identical fingerprint (hence the same set
of rds_ids) and the identical state — zero new `RDS_catalog` rows are
inserted, because every subquery is found by `fetch_id` and
`tagsistant_RDS_build` is never invoked.  (`1 ≤ next_id` holds for the SQL
backend, whose `AUTOINCREMENT` ids start at 1.) -/
theorem RDS_prepare_cache_hit (Q : Disjunction) (db : DB) (F : String) (db1 : DB)
    (hpos : 1 ≤ db.next_id)
    (h : tagsistant_RDS_prepare Q false false db = (some F, db1)) :
    tagsistant_RDS_prepare Q false false db1 = (some F, db1) := by
  cases Q with
  | nil => simp [tagsistant_RDS_prepare] at h
  | cons q rest =>
    have hst := loop_false_stable (q :: rest) db hpos
    simp only [tagsistant_RDS_prepare, Bool.false_eq_true, if_false] at h ⊢
    rw [Prod.mk.injEq] at h
    obtain ⟨hF, hdb⟩ := h
    subst hdb
    rw [hst, Prod.mk.injEq]
    exact ⟨hF, rfl⟩

/-- Witness for C2: a second prepare of the one-tag query over the state it
produced returns the same fingerprint and state. -/
theorem RDS_prepare_cache_hit_witness :
    tagsistant_RDS_prepare Wq1 false false Wdb1 = (some "1", Wdb1) :=
  RDS_prepare_cache_hit Wq1 Wdb0 "1" Wdb1 (by decide) (by decide)

theorem step_false_catalog_cases (q : Conjunction) (db : DB) :
    (RDS_step q false db).2.catalog = db.catalog
    ∨ (RDS_step q false db).2.catalog
        = db.catalog ++ [CatalogRow.mk db.next_id (tagsistant_RDS_build_subquery q) false] := by
  rw [step_false_eq]
  cases hc : catalogSelectId (tagsistant_RDS_build_subquery q) db.catalog == 0
  · rw [if_neg (by simp)]
    exact Or.inl rfl
  · rw [if_pos rfl]
    exact Or.inr (build_catalog q (tagsistant_RDS_build_subquery q) db)

theorem loop_false_expired (Q : Disjunction) : ∀ db : DB,
    (∀ r ∈ db.catalog, r.expired = false) →
    ∀ r ∈ (tagsistant_RDS_prepare_loop Q false db).2.catalog, r.expired = false := by
  induction Q with
  | nil => intro db hexp r hr; exact hexp r hr
  | cons q rest ih =>
    intro db hexp r hr
    simp only [tagsistant_RDS_prepare_loop] at hr
    refine ih _ ?_ r hr
    intro r2 hr2
    rcases step_false_catalog_cases q db with hcase | hcase <;> rw [hcase] at hr2
    · exact hexp r2 hr2
    · rcases List.mem_append.mp hr2 with h1 | h1
      · exact hexp r2 h1
      · simp only [List.mem_singleton] at h1
        rw [h1]

theorem step_false_id_row (q : Conjunction) (db : DB) (hpos : 1 ≤ db.next_id) :
    ∃ r ∈ (RDS_step q false db).2.catalog, r.rds_id = (RDS_step q false db).1 := by
  have h := step_false_sel q db hpos
  obtain ⟨r, hm, hid, -⟩ := selId_mem _ _ (by rw [h.1]; exact h.2)
  exact ⟨r, hm, hid.trans h.1⟩

theorem loop_false_ids_have_rows (Q : Disjunction) : ∀ db : DB, 1 ≤ db.next_id →
    ∀ id ∈ (tagsistant_RDS_prepare_loop Q false db).1,
      ∃ r ∈ (tagsistant_RDS_prepare_loop Q false db).2.catalog, r.rds_id = id := by
  induction Q with
  | nil => intro db hpos id hid; simp [tagsistant_RDS_prepare_loop] at hid
  | cons q rest ih =>
    intro db hpos id hid
    simp only [tagsistant_RDS_prepare_loop] at hid ⊢
    rcases List.mem_cons.mp hid with h1 | h1
    · obtain ⟨r, hm, hr⟩ := step_false_id_row q db hpos
      exact ⟨r, loop_false_catalog_mono rest _ r hm, h1 ▸ hr⟩
    · exact ih _ (Nat.le_trans hpos (step_next_mono q false db)) id h1

/-- C5 is false on the code: with the catalog entry `(1, "t1/")` already
marked `expired=1`, `prepare(Q, rebuild_expired=false)` returns fingerprint
`"1"`, and at the moment of return id 1 names that expired entry —
`fetch_id` selects by subquery only and ignores the `expired` column. -/
theorem RDS_prepare_returns_expired_entry :
    tagsistant_RDS_prepare Wq1 false false Wdb5 = (some "1", Wdb5)
    ∧ ∃ r ∈ Wdb5.catalog, r.rds_id = 1 ∧ r.expired = true := by decide

/-- C5 amended: every rds_id of the fingerprint names a catalog entry; if no
catalog entry was marked expired beforehand, every named entry is
non-expired at the moment prepare returns.  But `fetch_id` does not filter
on `expired`, so with `rebuild_expired=false` prepare can return the id of
an entry previously marked `expired=1` (see the counterexample). -/
theorem RDS_prepare_ids_nonexpired (Q : Disjunction) (db : DB) (s : String) (db1 : DB)
    (hpos : 1 ≤ db.next_id) (hexp : ∀ r ∈ db.catalog, r.expired = false)
    (h : tagsistant_RDS_prepare Q false false db = (some s, db1)) :
    ∀ id ∈ (tagsistant_RDS_prepare_loop Q false db).1,
      ∃ r ∈ db1.catalog, r.rds_id = id ∧ r.expired = false := by
  cases Q with
  | nil => simp [tagsistant_RDS_prepare] at h
  | cons q rest =>
    simp only [tagsistant_RDS_prepare, Bool.false_eq_true, if_false] at h
    rw [Prod.mk.injEq] at h
    obtain ⟨-, hdb⟩ := h
    subst hdb
    intro id hid
    obtain ⟨r, hm, hr⟩ := loop_false_ids_have_rows (q :: rest) db hpos id hid
    exact ⟨r, hm, hr, loop_false_expired (q :: rest) db hexp r hm⟩

/-- Witness for the amended C5: preparing the one-tag query from the pristine
state yields id 1 naming a live (non-expired) entry. -/
theorem RDS_prepare_ids_nonexpired_witness :
    ∃ r ∈ Wdb1.catalog, r.rds_id = 1 ∧ r.expired = false :=
  RDS_prepare_ids_nonexpired Wq1 Wdb0 "1" Wdb1 (by decide) (by decide) (by decide)
    1 (by decide)

theorem loop_length (Q : Disjunction) (reb : Bool) : ∀ db : DB,
    (tagsistant_RDS_prepare_loop Q reb db).1.length = Q.length := by
  induction Q with
  | nil => intro db; rfl
  | cons q rest ih =>
    intro db
    simp only [tagsistant_RDS_prepare_loop, List.length_cons, ih]

theorem fold_comma (ids : List Nat) : ∀ acc : String,
    ids.foldl (fun s i => s ++ ", " ++ toString i) acc
      = acc ++ strConcat (ids.map (fun i => ", " ++ toString i)) := by
  induction ids with
  | nil => intro acc; simp [strConcat, String.append_empty]
  | cons i rest ih =>
    intro acc
    simp only [List.foldl_cons, List.map_cons, strConcat]
    rw [ih]
    simp [String.append_assoc]

theorem render_cons : ∀ (ids : List Nat) (i : Nat),
    toString i ++ strConcat (ids.map (fun j => ", " ++ toString j))
      = fingerprint_render (i :: ids) := by
  intro ids
  induction ids with
  | nil => intro i; simp [strConcat, fingerprint_render, String.append_empty]
  | cons j rest ih =>
    intro i
    simp only [List.map_cons, strConcat, fingerprint_render]
    rw [← ih j]
    simp [String.append_assoc]

theorem drop_two_comma (x : String) : (", " ++ x).drop 2 = x := by
  apply String.ext
  rw [String.data_drop, String.data_append]
  have h2 : (", " : String).data = [',', ' '] := rfl
  rw [h2]
  rfl

/-- C6 is false on the code: for a two-disjunct query the returned
fingerprint is `"1, 2"` — the loop appends a comma AND a space before each
id — so the string does not match the spec grammar (base-10 integers joined
by a single comma with no padding characters), which `"1,2"` would. -/
theorem RDS_fingerprint_has_space :
    (tagsistant_RDS_prepare Wq6 false false Wdb0).1 = some "1, 2"
    ∧ RDS_fingerprint_grammar "1, 2" = false
    ∧ RDS_fingerprint_grammar "1,2" = true := by decide

/-- C6 amended: the fingerprint returned by prepare is the base-10 ids of
the per-disjunct loop, in disjunct order, one per conjunction, joined by a
comma and a single space (`fingerprint := id (", " id)*`). -/
theorem RDS_prepare_fingerprint_format (Q : Disjunction) (reb : Bool) (db : DB)
    (s : String) (db1 : DB)
    (h : tagsistant_RDS_prepare Q false reb db = (some s, db1)) :
    s = fingerprint_render (tagsistant_RDS_prepare_loop Q reb db).1
    ∧ (tagsistant_RDS_prepare_loop Q reb db).1.length = Q.length := by
  refine ⟨?_, loop_length Q reb db⟩
  cases Q with
  | nil => simp [tagsistant_RDS_prepare] at h
  | cons q rest =>
    simp only [tagsistant_RDS_prepare, Bool.false_eq_true, if_false] at h
    rw [Prod.mk.injEq] at h
    obtain ⟨hF, -⟩ := h
    have hs := Option.some.inj hF
    rw [← hs]
    simp only [tagsistant_RDS_prepare_loop]
    rw [fold_comma, String.empty_append]
    simp only [List.map_cons, strConcat]
    rw [String.append_assoc, drop_two_comma, render_cons]

/-- Witness for the amended C6 on the two-disjunct query `t1 OR t2`. -/
theorem RDS_prepare_fingerprint_format_witness :
    "1, 2" = fingerprint_render (tagsistant_RDS_prepare_loop Wq6 false Wdb0).1
    ∧ (tagsistant_RDS_prepare_loop Wq6 false Wdb0).1.length = Wq6.length :=
  RDS_prepare_fingerprint_format Wq6 false Wdb0 "1, 2" Wdb6 (by decide)

theorem invalidate_pairs (fp : List Nat) (db : DB) :
    catalogPairs (tagsistant_RDS_invalidate fp db) = catalogPairs db := by
  simp only [tagsistant_RDS_invalidate, catalogPairs, List.map_map]
  congr 1
  funext r
  by_cases hm : r.rds_id ∈ fp <;> simp [hm]

theorem invalidate_expired_monotone (fp : List Nat) (db : DB)
    (hids : (db.catalog.map (fun r => r.rds_id)).Nodup)
    (r : CatalogRow) (hr : r ∈ db.catalog) (hexp : r.expired = true)
    (r' : CatalogRow) (hr' : r' ∈ (tagsistant_RDS_invalidate fp db).catalog)
    (heq : r'.rds_id = r.rds_id) : r'.expired = true := by
  unfold tagsistant_RDS_invalidate at hr'
  obtain ⟨r0, hr0, hfr0⟩ := List.mem_map.mp hr'
  have hid0 : r0.rds_id = r.rds_id := by
    rw [← heq, ← hfr0]
    cases hc : fp.contains r0.rds_id <;> simp [hc]
  have hr0r : r0 = r := List.inj_on_of_nodup_map hids hr0 hr hid0
  rw [← hfr0, hr0r]
  cases hc : fp.contains r.rds_id <;> simp [hc, hexp]

theorem prepare_catalog_rows (Q : Disjunction) (all reb : Bool) (db : DB) (r' : CatalogRow)
    (h : r' ∈ (tagsistant_RDS_prepare Q all reb db).2.catalog) :
    r' ∈ db.catalog ∨ db.next_id ≤ r'.rds_id := by
  cases all
  · cases Q with
    | nil =>
      simp only [tagsistant_RDS_prepare, Bool.false_eq_true, if_false] at h
      exact Or.inl h
    | cons q rest =>
      simp only [tagsistant_RDS_prepare, Bool.false_eq_true, if_false] at h
      exact loop_catalog_rows (q :: rest) reb db r' h
  · simp only [tagsistant_RDS_prepare, if_pos rfl] at h
    exact Or.inl h

theorem prepare_expired_monotone (Q : Disjunction) (all reb : Bool) (db : DB) (hwf : DBwf db)
    (r : CatalogRow) (hr : r ∈ db.catalog) (hexp : r.expired = true)
    (r' : CatalogRow) (hr' : r' ∈ (tagsistant_RDS_prepare Q all reb db).2.catalog)
    (heq : r'.rds_id = r.rds_id) : r'.expired = true := by
  rcases prepare_catalog_rows Q all reb db r' hr' with h1 | h1
  · have h2 : r' = r := List.inj_on_of_nodup_map hwf.2.1 h1 hr heq
    rw [h2]
    exact hexp
  · exfalso
    have hb := (hwf.2.2.1 r hr).2
    rw [heq] at h1
    omega

/-- C7: invalidation is monotone and purely flag-setting.
`tagsistant_RDS_invalidate` leaves the `RDS` table, the id counter and every
catalog row's `(rds_id, subquery)` identity untouched (it only runs the
UPDATE setting `expired=1`); an entry whose `expired` flag is 1 keeps it
through any `invalidate` and any `prepare` (the flag never goes back to 0
within the entry's lifecycle); and `prepare` without `rebuild_expired`
deletes no catalog row — physical deletion happens only on rebuild. -/
theorem RDS_invalidate_monotone_flag_only (fp : List Nat) (db : DB) (Q : Disjunction)
    (all reb : Bool) (hwf : DBwf db) :
    (tagsistant_RDS_invalidate fp db).rds = db.rds
    ∧ (tagsistant_RDS_invalidate fp db).next_id = db.next_id
    ∧ catalogPairs (tagsistant_RDS_invalidate fp db) = catalogPairs db
    ∧ (∀ r ∈ db.catalog, r.expired = true →
        ∀ r' ∈ (tagsistant_RDS_invalidate fp db).catalog,
          r'.rds_id = r.rds_id → r'.expired = true)
    ∧ (∀ r ∈ db.catalog, r.expired = true →
        ∀ r' ∈ (tagsistant_RDS_prepare Q all reb db).2.catalog,
          r'.rds_id = r.rds_id → r'.expired = true)
    ∧ (∀ r ∈ db.catalog, r ∈ (tagsistant_RDS_prepare Q all false db).2.catalog) := by
  refine ⟨rfl, rfl, invalidate_pairs fp db, ?_, ?_, ?_⟩
  · intro r hr hexp r' hr' heq
    exact invalidate_expired_monotone fp db hwf.2.1 r hr hexp r' hr' heq
  · intro r hr hexp r' hr' heq
    exact prepare_expired_monotone Q all reb db hwf r hr hexp r' hr' heq
  · intro r hr
    cases all
    · cases Q with
      | nil =>
        simp only [tagsistant_RDS_prepare, Bool.false_eq_true, if_false]
        exact hr
      | cons q rest =>
        simp only [tagsistant_RDS_prepare, Bool.false_eq_true, if_false]
        exact loop_false_catalog_mono (q :: rest) db r hr
    · simp only [tagsistant_RDS_prepare, if_pos rfl]
      exact hr

/-- Witness for C7 at a concrete state: invalidating id 2 leaves the RDS
rows and the catalog identities intact, and the already-expired entry 1
keeps its flag. -/
theorem RDS_invalidate_monotone_flag_only_witness :
    (tagsistant_RDS_invalidate [2] Wdb7).rds = Wdb7.rds
    ∧ catalogPairs (tagsistant_RDS_invalidate [2] Wdb7) = catalogPairs Wdb7
    ∧ ({ rds_id := 1, subquery := "t1/", expired := true } : CatalogRow).expired = true :=
  have h := RDS_invalidate_monotone_flag_only [2] Wdb7 Wq1 false false (by decide)
  ⟨h.1, h.2.2.1,
   h.2.2.2.1 { rds_id := 1, subquery := "t1/", expired := true } (by decide) (by decide)
     { rds_id := 1, subquery := "t1/", expired := true } (by decide) (by decide)⟩

theorem step_true_builds (q : Conjunction) (db : DB) :
    RDS_step q true db = tagsistant_RDS_build q (tagsistant_RDS_build_subquery q)
      (tagsistant_RDS_fetch_id (tagsistant_RDS_build_subquery q) true db).2 := by
  rw [step_eq, if_pos (by rw [fetch_id_true_fst]; rfl)]

theorem step_true_fst (q : Conjunction) (db : DB) :
    (RDS_step q true db).1 = db.next_id := by
  rw [step_true_builds, build_fst, fetch_id_snd_next]

theorem step_true_rds_mem (q : Conjunction) (db : DB) (row : RDSRow)
    (h : row ∈ (RDS_step q true db).2.rds) :
    row ∈ (tagsistant_RDS_fetch_id (tagsistant_RDS_build_subquery q) true db).2.rds
    ∨ row.rds_id = db.next_id := by
  rw [step_true_builds] at h
  rcases build_rds_mem _ _ _ _ h with h1 | h1
  · exact Or.inl h1
  · right
    rw [h1, fetch_id_snd_next]

theorem step_true_catalog_mem (q : Conjunction) (db : DB) (r : CatalogRow)
    (hr : r ∈ db.catalog) (hne : r.subquery ≠ tagsistant_RDS_build_subquery q) :
    r ∈ (RDS_step q true db).2.catalog := by
  rw [step_true_builds, build_catalog]
  apply List.mem_append.mpr
  left
  rw [fetch_id_true_catalog]
  exact List.mem_filter.mpr ⟨hr, by simp [hne]⟩

theorem loop_true_fresh (Q : Disjunction) : ∀ db : DB,
    ∀ id ∈ (tagsistant_RDS_prepare_loop Q true db).1, db.next_id ≤ id := by
  induction Q with
  | nil => intro db id hid; simp [tagsistant_RDS_prepare_loop] at hid
  | cons q rest ih =>
    intro db id hid
    simp only [tagsistant_RDS_prepare_loop] at hid
    rcases List.mem_cons.mp hid with h1 | h1
    · rw [h1, step_true_fst]
    · exact Nat.le_trans (step_next_mono q true db) (ih _ id h1)

theorem fetch_id_true_purges (s : String) (db : DB) (r : CatalogRow)
    (hr : r ∈ db.catalog) (hsub : r.subquery = s)
    (huniq : (db.catalog.map (fun x => x.subquery)).Nodup) :
    ∀ row ∈ (tagsistant_RDS_fetch_id s true db).2.rds, row.rds_id ≠ r.rds_id := by
  intro row hrow
  unfold tagsistant_RDS_fetch_id at hrow
  cases hf : db.catalog.find? (fun x => x.subquery == s) with
  | none =>
    exfalso
    have := List.find?_eq_none.mp hf r hr
    simp [hsub] at this
  | some r0 =>
    simp only [hf] at hrow
    have hr0mem : r0 ∈ db.catalog := List.mem_of_find?_eq_some hf
    have hr0sub : r0.subquery = s := by simpa using List.find?_some hf
    have hr0r : r0 = r := List.inj_on_of_nodup_map huniq hr0mem hr (by rw [hr0sub, hsub])
    have hkeep := (List.mem_filter.mp hrow).2
    rw [← hr0r]
    simpa using hkeep

theorem wf_build_no_row (q : Conjunction) (s : String) (db : DB) (hwf : DBwf db)
    (hno : ∀ r ∈ db.catalog, r.subquery ≠ s) : DBwf (tagsistant_RDS_build q s db).2 := by
  obtain ⟨h1, h2, h3, h4⟩ := hwf
  refine ⟨?_, ?_, ?_, ?_⟩
  · rw [build_catalog, List.map_append]
    apply List.nodup_append.mpr
    refine ⟨h1, by simp, ?_⟩
    intro a ha hb
    simp only [List.map_cons, List.map_nil, List.mem_singleton] at hb
    obtain ⟨r, hrm, hrs⟩ := List.mem_map.mp ha
    exact hno r hrm (hrs.trans hb)
  · rw [build_catalog, List.map_append]
    apply List.nodup_append.mpr
    refine ⟨h2, by simp, ?_⟩
    intro a ha hb
    simp only [List.map_cons, List.map_nil, List.mem_singleton] at hb
    obtain ⟨r, hrm, hrs⟩ := List.mem_map.mp ha
    have := (h3 r hrm).2
    rw [hrs, hb] at this
    omega
  · rw [build_catalog, build_next_id]
    intro r hr
    rcases List.mem_append.mp hr with hr1 | hr1
    · have := h3 r hr1
      exact ⟨this.1, by omega⟩
    · simp only [List.mem_singleton] at hr1
      rw [hr1]
      refine ⟨h4, ?_⟩
      show db.next_id < db.next_id + 1
      omega
  · rw [build_next_id]
    omega

theorem wf_fetch_true (s : String) (db : DB) (hwf : DBwf db) :
    DBwf (tagsistant_RDS_fetch_id s true db).2 := by
  obtain ⟨h1, h2, h3, h4⟩ := hwf
  refine ⟨?_, ?_, ?_, ?_⟩
  · rw [fetch_id_true_catalog]
    exact List.Nodup.sublist (List.Sublist.map _ (List.filter_sublist _)) h1
  · rw [fetch_id_true_catalog]
    exact List.Nodup.sublist (List.Sublist.map _ (List.filter_sublist _)) h2
  · intro r hr
    rw [fetch_id_true_catalog] at hr
    rw [fetch_id_snd_next]
    exact h3 r (List.mem_filter.mp hr).1
  · rw [fetch_id_snd_next]
    exact h4

theorem wf_step (q : Conjunction) (reb : Bool) (db : DB) (hwf : DBwf db) :
    DBwf (RDS_step q reb db).2 := by
  cases reb
  · rw [step_false_eq]
    cases hc : catalogSelectId (tagsistant_RDS_build_subquery q) db.catalog == 0
    · rw [if_neg (by simp)]
      exact hwf
    · rw [if_pos rfl]
      apply wf_build_no_row q _ db hwf
      apply selId_zero_no_row _ _ (fun r hr => (hwf.2.2.1 r hr).1)
      simpa using hc
  · rw [step_true_builds]
    apply wf_build_no_row _ _ _ (wf_fetch_true _ db hwf)
    intro r hr
    rw [fetch_id_true_catalog] at hr
    have := (List.mem_filter.mp hr).2
    simpa using this

theorem wf_loop (Q : Disjunction) (reb : Bool) : ∀ db : DB, DBwf db →
    DBwf (tagsistant_RDS_prepare_loop Q reb db).2 := by
  induction Q with
  | nil => intro db hwf; exact hwf
  | cons q rest ih =>
    intro db hwf
    simp only [tagsistant_RDS_prepare_loop]
    exact ih _ (wf_step q reb db hwf)

theorem invalidate_map_subquery (fp : List Nat) (db : DB) :
    (tagsistant_RDS_invalidate fp db).catalog.map (fun r => r.subquery)
      = db.catalog.map (fun r => r.subquery) := by
  simp only [tagsistant_RDS_invalidate, List.map_map]
  congr 1
  funext r
  by_cases hm : r.rds_id ∈ fp <;> simp [hm]

theorem invalidate_map_id (fp : List Nat) (db : DB) :
    (tagsistant_RDS_invalidate fp db).catalog.map (fun r => r.rds_id)
      = db.catalog.map (fun r => r.rds_id) := by
  simp only [tagsistant_RDS_invalidate, List.map_map]
  congr 1
  funext r
  by_cases hm : r.rds_id ∈ fp <;> simp [hm]

theorem wf_invalidate (fp : List Nat) (db : DB) (hwf : DBwf db) :
    DBwf (tagsistant_RDS_invalidate fp db) := by
  obtain ⟨h1, h2, h3, h4⟩ := hwf
  refine ⟨?_, ?_, ?_, h4⟩
  · rw [invalidate_map_subquery]
    exact h1
  · rw [invalidate_map_id]
    exact h2
  · intro r hr
    unfold tagsistant_RDS_invalidate at hr
    obtain ⟨r0, hr0, hfr0⟩ := List.mem_map.mp hr
    have hb := h3 r0 hr0
    rw [← hfr0]
    by_cases hm : r0.rds_id ∈ fp <;> simp [tagsistant_RDS_invalidate, hm] <;> exact hb

theorem invalidate_preserves_pair (fp : List Nat) (db : DB) (r : CatalogRow)
    (hr : r ∈ db.catalog) :
    ∃ r2 ∈ (tagsistant_RDS_invalidate fp db).catalog,
      r2.rds_id = r.rds_id ∧ r2.subquery = r.subquery := by
  unfold tagsistant_RDS_invalidate
  refine ⟨_, List.mem_map_of_mem _ hr, ?_⟩
  by_cases hm : r.rds_id ∈ fp <;> simp [hm]

theorem forall2_mem_left {α β : Type} {P : α → β → Prop} {l1 : List α} {l2 : List β}
    (h : List.Forall₂ P l1 l2) : ∀ a ∈ l1, ∃ b ∈ l2, P a b := by
  induction h with
  | nil => intro a ha; cases ha
  | cons hab htail ih =>
    intro a ha
    rcases List.mem_cons.mp ha with h1 | h1
    · exact ⟨_, List.mem_cons_self _ _, h1 ▸ hab⟩
    · obtain ⟨b, hb, hPb⟩ := ih a h1
      exact ⟨b, List.mem_cons_of_mem _ hb, hPb⟩

theorem loop_false_pairs (Q : Disjunction) : ∀ db : DB, DBwf db →
    List.Forall₂ (fun id q =>
      (∃ r ∈ (tagsistant_RDS_prepare_loop Q false db).2.catalog,
          r.rds_id = id ∧ r.subquery = tagsistant_RDS_build_subquery q)
      ∧ id < (tagsistant_RDS_prepare_loop Q false db).2.next_id)
      (tagsistant_RDS_prepare_loop Q false db).1 Q := by
  induction Q with
  | nil => intro db hwf; exact List.Forall₂.nil
  | cons q rest ih =>
    intro db hwf
    simp only [tagsistant_RDS_prepare_loop]
    refine List.Forall₂.cons ?_ (ih _ (wf_step q false db hwf))
    have hwfA := wf_step q false db hwf
    have hs := step_false_sel q db hwf.2.2.2
    obtain ⟨r, hm, hid, hsub⟩ := selId_mem _ _ (by rw [hs.1]; exact hs.2)
    refine ⟨⟨r, loop_false_catalog_mono rest _ r hm, hid.trans hs.1, hsub⟩, ?_⟩
    have hb := (hwfA.2.2.1 r hm).2
    calc (RDS_step q false db).1 = r.rds_id := (hid.trans hs.1).symm
      _ < (RDS_step q false db).2.next_id := hb
      _ ≤ _ := loop_next_mono rest false _

theorem loop_true_purges (Q : Disjunction) : ∀ (db : DB) (F : List Nat), DBwf db →
    (∀ id ∈ F, id < db.next_id ∧
      ((∀ row ∈ db.rds, row.rds_id ≠ id)
       ∨ ∃ q ∈ Q, ∃ r ∈ db.catalog,
           r.rds_id = id ∧ r.subquery = tagsistant_RDS_build_subquery q)) →
    ∀ row ∈ (tagsistant_RDS_prepare_loop Q true db).2.rds,
      ∀ id ∈ F, row.rds_id ≠ id := by
  induction Q with
  | nil =>
    intro db F hwf hinv row hrow id hid
    rcases (hinv id hid).2 with hno | ⟨q, hq, -⟩
    · exact hno row hrow
    · exact absurd hq (List.not_mem_nil q)
  | cons q0 rest ih =>
    intro db F hwf hinv row hrow id hid
    simp only [tagsistant_RDS_prepare_loop] at hrow
    refine ih (RDS_step q0 true db).2 F (wf_step q0 true db hwf) ?_ row hrow id hid
    intro id2 hid2
    obtain ⟨hbound, hcase⟩ := hinv id2 hid2
    refine ⟨Nat.lt_of_lt_of_le hbound (step_next_mono q0 true db), ?_⟩
    rcases hcase with hno | ⟨q1, hq1, r, hr, hrid, hrsub⟩
    · left
      intro row2 hrow2
      rcases step_true_rds_mem q0 db row2 hrow2 with h1 | h1
      · exact hno row2 (fetch_id_rds_sub _ _ _ _ h1)
      · rw [h1]
        omega
    · by_cases hqq : tagsistant_RDS_build_subquery q1 = tagsistant_RDS_build_subquery q0
      · left
        intro row2 hrow2
        rcases step_true_rds_mem q0 db row2 hrow2 with h1 | h1
        · have hpurge := fetch_id_true_purges (tagsistant_RDS_build_subquery q0) db r hr
            (hrsub.trans hqq) hwf.1 row2 h1
          rw [hrid] at hpurge
          exact hpurge
        · rw [h1]
          omega
      · right
        have hq1rest : q1 ∈ rest := by
          rcases List.mem_cons.mp hq1 with h | h
          · exact absurd (by rw [h]) hqq
          · exact h
        have hne : r.subquery ≠ tagsistant_RDS_build_subquery q0 := by
          rw [hrsub]
          exact hqq
        exact ⟨q1, hq1rest, r, step_true_catalog_mem q0 db r hr hne, hrid, hrsub⟩

/-- C3: rebuild purges.  `fetch_id` with `rebuild_expired` deletes the RDS
rows of the catalog row matching the subquery and then the catalog row
itself before selecting; consequently, over a well-formed state, after
`prepare(Q)`, `invalidate` of its fingerprint and `prepare(Q,
rebuild_expired=true)`, no RDS row tagged with any old rds_id of the first
fingerprint remains, and the new fingerprint consists of freshly assigned
ids disjoint from the old ones. -/
theorem RDS_rebuild_purges (Q : Disjunction) (db : DB) (F F' : List Nat)
    (db1 db2 db3 : DB) (hwf : DBwf db)
    (h1 : tagsistant_RDS_prepare_loop Q false db = (F, db1))
    (h2 : tagsistant_RDS_invalidate F db1 = db2)
    (h3 : tagsistant_RDS_prepare_loop Q true db2 = (F', db3)) :
    (∀ row ∈ db3.rds, ∀ id ∈ F, row.rds_id ≠ id)
    ∧ (∀ id' ∈ F', id' ∉ F) := by
  have hpairs := loop_false_pairs Q db hwf
  rw [h1] at hpairs
  have hwf1 : DBwf db1 := by
    have hw := wf_loop Q false db hwf
    rw [h1] at hw
    exact hw
  have hwf2 : DBwf db2 := h2 ▸ wf_invalidate F db1 hwf1
  have hnext2 : db2.next_id = db1.next_id := by rw [← h2]; rfl
  have hpair2 : ∀ id ∈ F, id < db2.next_id ∧
      ∃ q ∈ Q, ∃ r ∈ db2.catalog,
        r.rds_id = id ∧ r.subquery = tagsistant_RDS_build_subquery q := by
    intro id hid
    obtain ⟨q, hq, hP⟩ := forall2_mem_left hpairs id hid
    obtain ⟨⟨r, hr, hrid, hrsub⟩, hbound⟩ := hP
    refine ⟨by rw [hnext2]; exact hbound, q, hq, ?_⟩
    obtain ⟨r2, hr2, h2id, h2sub⟩ := invalidate_preserves_pair F db1 r hr
    rw [← h2]
    exact ⟨r2, hr2, h2id.trans hrid, h2sub.trans hrsub⟩
  constructor
  · have hp := loop_true_purges Q db2 F hwf2
      (fun id hid => ⟨(hpair2 id hid).1, Or.inr (hpair2 id hid).2⟩)
    rw [h3] at hp
    exact hp
  · intro id' hid' hin
    have hfresh := loop_true_fresh Q db2 id' (by rw [h3]; exact hid')
    have := (hpair2 id' hin).1
    omega

/-- Witness for C3 on a concrete run: after invalidating and rebuilding the
`t1` query, the surviving RDS row carries the new id 2, which differs from
the purged old id 1. -/
theorem RDS_rebuild_purges_witness :
    ({ rds_id := 2, inode := 7, objectname := "f" } : RDSRow).rds_id ≠ 1
    ∧ (2 : Nat) ∉ [1] :=
  have h := RDS_rebuild_purges Wq1 Wdb3 [1] [2] Wdb3a Wdb3b Wdb3c
    (by decide) (by decide) (by decide) (by decide)
  ⟨h.1 { rds_id := 2, inode := 7, objectname := "f" } (by decide) 1 (by decide),
   h.2 2 (by decide)⟩

end Tagsistant
